import Mathlib

/-!
Verification development for the Instagram wine/food content generator
(`app.py`): a shallow embedding in Lean 4 of the natural-language
instruction parser (`PromptInterface._parse_instruction` and its helpers),
the JSON content-history store (`_save_content_history`,
`get_content_history`, including faithful models of Python's
`json.dump(indent=2, ensure_ascii=False)` and `json.load`), and the
`process_prompt` / `generate_content` orchestration.

Python strings are modelled as Lean `String` (sequences of Unicode scalar
values); machine-level details such as lone surrogates are out of scope.
`str.lower()` and `str.split()` are modelled on their ASCII behaviour,
which covers every keyword table in the source (all table entries are
ASCII).
-/

set_option maxHeartbeats 1000000

namespace InstaGen

/-- ASCII whitespace recognised by Python `str.split()` (no argument):
space, tab, newline, carriage return, vertical tab, form feed. -/
def pyWs (c : Char) : Bool :=
  c = ' ' || c = '\t' || c = '\n' || c = '\r' || c = '\x0b' || c = '\x0c'

/-- Model of Python `str.lower()` on a single character (ASCII case map;
the source only compares against ASCII keyword tables). -/
def pyLowerChar (c : Char) : Char := c.toLower

/-- Model of Python `str.lower()`. -/
def pyLower (s : String) : String := String.mk (s.toList.map pyLowerChar)

/-- Worker for `pySplit`: `acc` holds the characters of the token being
read, in reverse order. -/
def pySplitGo : List Char → List Char → List (List Char)
  | [], acc => if acc.isEmpty then [] else [acc.reverse]
  | c :: cs, acc =>
    if pyWs c then
      if acc.isEmpty then pySplitGo cs [] else acc.reverse :: pySplitGo cs []
    else
      pySplitGo cs (c :: acc)

/-- Model of Python `str.split()` with no argument: split on runs of
whitespace, discarding empty tokens and leading/trailing whitespace. -/
def pySplit (l : List Char) : List (List Char) := pySplitGo l []

/-- Substring test on character lists (helper for `strIn`). -/
def containsSub (needle : List Char) : List Char → Bool
  | [] => needle.isEmpty
  | c :: t => needle.isPrefixOf (c :: t) || containsSub needle t

/-- Model of Python's substring operator `needle in hay` on strings. -/
def strIn (needle hay : String) : Bool :=
  containsSub needle.toList hay.toList

/-- The stop-word list of `_extract_topic` (`instruction_words` in the
source), in source order. -/
def instruction_words : List String :=
  ["create", "generate", "write", "make", "build", "post", "about",
   "for", "instagram", "content", "caption", "image", "prompt"]

/-- The stop-word list as character lists, for token-level comparison. -/
def stopChars : List (List Char) := instruction_words.map String.toList

/-- Model of Python `' '.join`: concatenate tokens with a single space
between consecutive tokens. -/
def joinSp : List (List Char) → List Char
  | [] => []
  | [t] => t
  | t :: u :: ts => t ++ ' ' :: joinSp (u :: ts)

/-- `PromptInterface._extract_topic`: split the prompt on whitespace, keep
the words whose lower-cased form is not an instruction word, join the
survivors with single spaces; if nothing survives, return the whole
prompt. -/
def extract_topic (p : String) : String :=
  let words := pySplit p.toList
  let topic_words := words.filter (fun w => !(stopChars.contains (w.map pyLowerChar)))
  if topic_words.isEmpty then p
  else String.mk (joinSp topic_words)

/-- The ordered style keyword table of `_extract_style`
(`style_keywords` in the source, in declaration order). -/
def style_keywords : List (String × List String) :=
  [("casual", ["casual", "relaxed", "laid-back", "informal"]),
   ("professional", ["professional", "formal", "business", "corporate"]),
   ("fun", ["fun", "playful", "energetic", "vibrant", "exciting"]),
   ("elegant", ["elegant", "sophisticated", "classy", "refined"]),
   ("educational", ["educational", "informative", "teaching", "learning"])]

/-- `PromptInterface._extract_style`: first style in table order with any
keyword occurring as a substring of the (already lower-cased) prompt;
default "conversational". -/
def extract_style (prompt_lower : String) : String :=
  match style_keywords.find? (fun e => e.2.any (fun k => strIn k prompt_lower)) with
  | some e => e.1
  | none => "conversational"

/-- The ordered requirement pattern table of `_extract_requirements`
(`requirement_patterns` in the source, in declaration order). -/
def requirement_patterns : List (String × List String) :=
  [("no_emojis", ["no emoji", "without emoji", "no emojis"]),
   ("include_cta", ["call to action", "cta", "include cta"]),
   ("short_format", ["short", "brief", "concise", "quick"]),
   ("long_format", ["detailed", "long", "comprehensive", "in-depth"]),
   ("hashtags", ["hashtag", "tags", "#"]),
   ("story_format", ["story", "narrative", "storytelling"])]

/-- `PromptInterface._extract_requirements`: every requirement tag (in
declaration order) any of whose patterns occurs as a substring of the
lower-cased prompt. -/
def extract_requirements (prompt_lower : String) : List String :=
  (requirement_patterns.filter (fun e => e.2.any (fun k => strIn k prompt_lower))).map
    Prod.fst

/-- The structured result of `_parse_instruction` (Python dict with keys
`topic`, `style`, `requirements`, `save_file`). -/
structure ParsedInstruction where
  topic : String
  style : String
  requirements : List String
  save_file : Bool
deriving Repr, DecidableEq

/-- `PromptInterface._parse_instruction`. -/
def parse_instruction (p : String) : ParsedInstruction :=
  let prompt_lower := pyLower p
  { topic := extract_topic p
    style := extract_style prompt_lower
    requirements := extract_requirements prompt_lower
    save_file := !(strIn "no save" prompt_lower) && !(strIn "don\x27t save" prompt_lower) }

/-! ## JSON values

Model of the Python `json` module as used by the store:
`json.dump(history, f, indent=2, ensure_ascii=False)` and `json.load(f)`.
Arrays and objects are mutual inductives so that all recursion below is
structural (kernel-reducible).

The decoder below accepts exactly the texts CPython's default `json.load`
accepts (integers with the no-leading-zero rule, fraction/exponent
number forms, the `NaN`/`Infinity`/`-Infinity` constants, string escapes
including surrogate pairs, strict rejection of raw control characters).
Three value-level approximations, none of which affects whether decoding
succeeds: a non-integer number is carried as its source literal in
`fnum` (CPython converts to float; float arithmetic and float repr on
re-dump are not modelled — the store itself never writes numbers); a
lone surrogate decoded from a `\uXXXX` escape is represented by U+FFFD
(a lone surrogate is not a Unicode scalar value, so no Lean `Char`
exists for it); duplicate object keys keep all pairs in insertion order
(CPython's dict keeps the last). CPython's recursion limit (a resource
bound, not part of the format) is not modelled. -/

mutual
inductive Json where
  | null : Json
  | boolean (b : Bool) : Json
  | num (n : Int) : Json
  | fnum (lit : String) : Json
  | str (s : String) : Json
  | arr (xs : JsonArr) : Json
  | obj (kvs : JsonObj) : Json
deriving DecidableEq
inductive JsonArr where
  | nil : JsonArr
  | cons (hd : Json) (tl : JsonArr) : JsonArr
deriving DecidableEq
inductive JsonObj where
  | nil : JsonObj
  | cons (key : String) (val : Json) (tl : JsonObj) : JsonObj
deriving DecidableEq
end

/-- Append on JSON arrays (model of Python `list.append` / `+`). -/
def JsonArr.append : JsonArr → JsonArr → JsonArr
  | .nil, ys => ys
  | .cons x xs, ys => .cons x (xs.append ys)

/-- Lower-case hexadecimal digit, as produced by Python `format(i, "04x")`. -/
def hexDigitChar (n : Nat) : Char :=
  if n < 10 then Char.ofNat (48 + n) else Char.ofNat (87 + n)

/-- Escape of one character inside a JSON string literal, as performed by
`json.encoder.py_encode_basestring` (the `ensure_ascii=False` escaper):
only `"`, `\`, and control characters are escaped; everything else,
including non-ASCII characters, passes through literally. -/
def escChar (c : Char) : List Char :=
  if c = '"' then ['\\', '"']
  else if c = '\\' then ['\\', '\\']
  else if c = '\x08' then ['\\', 'b']
  else if c = '\x0c' then ['\\', 'f']
  else if c = '\n' then ['\\', 'n']
  else if c = '\r' then ['\\', 'r']
  else if c = '\t' then ['\\', 't']
  else if c.toNat < 32 then
    ['\\', 'u', '0', '0', hexDigitChar (c.toNat / 16), hexDigitChar (c.toNat % 16)]
  else [c]

/-- Escape every character of a string body. -/
def escBody : List Char → List Char
  | [] => []
  | c :: cs => escChar c ++ escBody cs

/-- A JSON string literal: quote, escaped body, quote. -/
def encodeString (s : String) : List Char := '"' :: (escBody s.toList ++ ['"'])

/-- Newline followed by the indentation of nesting level `lvl`
(`indent=2`). -/
def nlIndent (lvl : Nat) : List Char := '\n' :: List.replicate (2 * lvl) ' '

mutual
/-- `json.dumps` with `indent=2, ensure_ascii=False`, at nesting level
`lvl`. -/
def dumpJson (lvl : Nat) : Json → List Char
  | .null => ['n', 'u', 'l', 'l']
  | .boolean true => ['t', 'r', 'u', 'e']
  | .boolean false => ['f', 'a', 'l', 's', 'e']
  | .num n => (toString n).toList
  | .fnum lit => lit.toList
  | .str s => encodeString s
  | .arr .nil => ['[', ']']
  | .arr (.cons x xs) =>
    '[' :: (nlIndent (lvl + 1) ++ dumpJson (lvl + 1) x ++ dumpArrRest (lvl + 1) xs
      ++ nlIndent lvl ++ [']'])
  | .obj .nil => ['\x7b', '\x7d']
  | .obj (.cons k v kvs) =>
    '\x7b' :: (nlIndent (lvl + 1) ++ encodeString k ++ ':' :: ' ' :: dumpJson (lvl + 1) v
      ++ dumpObjRest (lvl + 1) kvs ++ nlIndent lvl ++ ['\x7d'])
/-- The remaining array items, each preceded by `",\n" ++ indent`. -/
def dumpArrRest (lvl : Nat) : JsonArr → List Char
  | .nil => []
  | .cons x xs => ',' :: (nlIndent lvl ++ dumpJson lvl x ++ dumpArrRest lvl xs)
/-- The remaining object members, each preceded by `",\n" ++ indent`. -/
def dumpObjRest (lvl : Nat) : JsonObj → List Char
  | .nil => []
  | .cons k v kvs =>
    ',' :: (nlIndent lvl ++ encodeString k ++ ':' :: ' ' :: dumpJson lvl v
      ++ dumpObjRest lvl kvs)
end

/-- `json.dumps(j, indent=2, ensure_ascii=False)`; also the exact file
content written by `json.dump`. -/
def dumps (j : Json) : String := String.mk (dumpJson 0 j)

/-! ## JSON parsing (model of `json.loads`) -/

/-- JSON insignificant whitespace. -/
def jsonWs (c : Char) : Bool := c = ' ' || c = '\t' || c = '\n' || c = '\r'

/-- Skip insignificant whitespace. -/
def skipWs (l : List Char) : List Char := l.dropWhile jsonWs

/-- Value of one hexadecimal digit; 16 marks a non-hex character. -/
def hexVal (c : Char) : Nat :=
  if '0' ≤ c ∧ c ≤ '9' then c.toNat - 48
  else if 'a' ≤ c ∧ c ≤ 'f' then c.toNat - 87
  else if 'A' ≤ c ∧ c ≤ 'F' then c.toNat - 55
  else 16

/-- Decode of a single-character JSON escape (after the backslash). -/
def escDecode (c : Char) : Option Char :=
  if c = '"' then some '"'
  else if c = '\\' then some '\\'
  else if c = '/' then some '/'
  else if c = 'b' then some '\x08'
  else if c = 'f' then some '\x0c'
  else if c = 'n' then some '\n'
  else if c = 'r' then some '\r'
  else if c = 't' then some '\t'
  else none

/-- Parse the body of a JSON string literal after the opening quote,
returning the decoded characters and the input after the closing quote.
Raw control characters are rejected (strict mode), as CPython's default
`strict=True` does. Surrogate handling follows `py_scanstring`: a high
surrogate escape immediately followed by a low surrogate escape combines
into the astral character; any other surrogate escape is kept by CPython
as a lone surrogate, which has no Lean `Char`, so it is represented by
U+FFFD — the acceptance decision is unaffected, only the stand-in value
differs, and the dumper never emits surrogate escapes. -/
def parseStringBody : List Char → Option (List Char × List Char)
  | [] => none
  | c :: rest =>
    if c = '"' then some ([], rest)
    else if c = '\\' then
      match rest with
      | [] => none
      | e :: rest2 =>
        if e = 'u' then
          match rest2 with
          | h1 :: h2 :: h3 :: h4 :: rest3 =>
            if hexVal h1 < 16 ∧ hexVal h2 < 16 ∧ hexVal h3 < 16 ∧ hexVal h4 < 16 then
              if ((hexVal h1 * 16 + hexVal h2) * 16 + hexVal h3) * 16 + hexVal h4 < 55296
                  ∨ 57344 ≤ ((hexVal h1 * 16 + hexVal h2) * 16 + hexVal h3) * 16
                      + hexVal h4 then
                (parseStringBody rest3).map
                  (fun q => (Char.ofNat (((hexVal h1 * 16 + hexVal h2) * 16 + hexVal h3)
                    * 16 + hexVal h4) :: q.1, q.2))
              else if ((hexVal h1 * 16 + hexVal h2) * 16 + hexVal h3) * 16 + hexVal h4
                  < 56320 then
                match hr3 : rest3 with
                | '\\' :: 'u' :: h5 :: h6 :: h7 :: h8 :: rest4 =>
                  if hexVal h5 < 16 ∧ hexVal h6 < 16 ∧ hexVal h7 < 16 ∧ hexVal h8 < 16 then
                    if 56320 ≤ ((hexVal h5 * 16 + hexVal h6) * 16 + hexVal h7) * 16
                          + hexVal h8
                        ∧ ((hexVal h5 * 16 + hexVal h6) * 16 + hexVal h7) * 16
                          + hexVal h8 < 57344 then
                      (parseStringBody rest4).map
                        (fun q => (Char.ofNat (65536
                          + (((hexVal h1 * 16 + hexVal h2) * 16 + hexVal h3) * 16
                              + hexVal h4 - 55296) * 1024
                          + (((hexVal h5 * 16 + hexVal h6) * 16 + hexVal h7) * 16
                              + hexVal h8 - 56320)) :: q.1, q.2))
                    else
                      (parseStringBody rest3).map (fun q => ('\uFFFD' :: q.1, q.2))
                  else
                    (parseStringBody rest3).map (fun q => ('\uFFFD' :: q.1, q.2))
                | _ => (parseStringBody rest3).map (fun q => ('\uFFFD' :: q.1, q.2))
              else
                (parseStringBody rest3).map (fun q => ('\uFFFD' :: q.1, q.2))
            else none
          | _ => none
        else
          match escDecode e with
          | some d => (parseStringBody rest2).map (fun r => (d :: r.1, r.2))
          | none => none
    else if c.toNat < 32 then none
    else (parseStringBody rest).map (fun r => (c :: r.1, r.2))
termination_by l => l.length
decreasing_by all_goals (simp_all only [List.length_cons]; omega)

/-- Decimal value of a digit run. -/
def digitsVal (l : List Char) : Nat :=
  l.foldl (fun a c => a * 10 + (c.toNat - 48)) 0

/-- Parse a JSON number following CPython's `NUMBER_RE`:
`-?(0|[1-9][0-9]*)(\.[0-9]+)?([eE][+-]?[0-9]+)?`, maximal munch. A
leading `0` is never followed by more integer digits (so `01` scans as
`0` with `1` left over, which the surrounding context then rejects —
CPython's "Extra data" / "Expecting ',' delimiter" errors). A fraction
or exponent makes the number a float, carried as its source literal in
`fnum`. -/
def parseJsonNumber (l : List Char) : Option (Json × List Char) :=
  let sgn : List Char := match l with
    | '-' :: _ => ['-']
    | _ => []
  let l1 : List Char := match l with
    | '-' :: t => t
    | _ => l
  match l1 with
  | [] => none
  | d :: rest =>
    if d.isDigit then
      let intDs := if d = '0' then [d] else d :: rest.takeWhile Char.isDigit
      let r1 := if d = '0' then rest else rest.dropWhile Char.isDigit
      let fracDs : List Char := match r1 with
        | '.' :: t => if (t.takeWhile Char.isDigit).isEmpty then []
            else '.' :: t.takeWhile Char.isDigit
        | _ => []
      let r2 : List Char := match r1 with
        | '.' :: t => if (t.takeWhile Char.isDigit).isEmpty then r1
            else t.dropWhile Char.isDigit
        | _ => r1
      let expDs : List Char := match r2 with
        | e :: t =>
          if e = 'e' || e = 'E' then
            match t with
            | '+' :: u => if (u.takeWhile Char.isDigit).isEmpty then []
                else e :: '+' :: u.takeWhile Char.isDigit
            | '-' :: u => if (u.takeWhile Char.isDigit).isEmpty then []
                else e :: '-' :: u.takeWhile Char.isDigit
            | u => if (u.takeWhile Char.isDigit).isEmpty then []
                else e :: u.takeWhile Char.isDigit
          else []
        | [] => []
      let r3 : List Char := match r2 with
        | e :: t =>
          if e = 'e' || e = 'E' then
            match t with
            | '+' :: u => if (u.takeWhile Char.isDigit).isEmpty then r2
                else u.dropWhile Char.isDigit
            | '-' :: u => if (u.takeWhile Char.isDigit).isEmpty then r2
                else u.dropWhile Char.isDigit
            | u => if (u.takeWhile Char.isDigit).isEmpty then r2
                else u.dropWhile Char.isDigit
          else r2
        | [] => r2
      if fracDs.isEmpty && expDs.isEmpty then
        some (.num (if sgn.isEmpty then (digitsVal intDs : Int)
          else -(digitsVal intDs : Int)), r1)
      else
        some (.fnum (String.mk (sgn ++ intDs ++ fracDs ++ expDs)), r3)
    else none

/-- Check that the input starts with the given literal characters and
return the remainder (for `null`, `true`, `false`). -/
def expectLit : List Char → List Char → Option (List Char)
  | [], l => some l
  | _ :: _, [] => none
  | c :: cs, d :: l => if c = d then expectLit cs l else none

mutual
/-- Fueled recursive-descent JSON value parser. The fuel only bounds the
recursion depth; `loads` supplies more fuel than any input can consume. -/
def parseValue : Nat → List Char → Option (Json × List Char)
  | 0, _ => none
  | f + 1, input =>
    match skipWs input with
    | [] => none
    | c :: r =>
      if c = '"' then (parseStringBody r).map (fun p => (.str (String.mk p.1), p.2))
      else if c = '[' then parseArrBody f r
      else if c = '\x7b' then parseObjBody f r
      else if c = 'n' then (expectLit ['u', 'l', 'l'] r).map (fun r2 => (.null, r2))
      else if c = 't' then (expectLit ['r', 'u', 'e'] r).map (fun r2 => (.boolean true, r2))
      else if c = 'f' then
        (expectLit ['a', 'l', 's', 'e'] r).map (fun r2 => (.boolean false, r2))
      else if c = 'N' then
        (expectLit ['a', 'N'] r).map (fun r2 => (.fnum "NaN", r2))
      else if c = 'I' then
        (expectLit ['n', 'f', 'i', 'n', 'i', 't', 'y'] r).map
          (fun r2 => (.fnum "Infinity", r2))
      else if c = '-' || c.isDigit then
        match parseJsonNumber (c :: r) with
        | some p => some p
        | none =>
          if c = '-' then
            (expectLit ['I', 'n', 'f', 'i', 'n', 'i', 't', 'y'] r).map
              (fun r2 => (.fnum "-Infinity", r2))
          else none
      else none
/-- Array contents after the opening bracket. -/
def parseArrBody : Nat → List Char → Option (Json × List Char)
  | 0, _ => none
  | f + 1, r =>
    match skipWs r with
    | [] => none
    | c :: r2 =>
      if c = ']' then some (.arr .nil, r2)
      else
        match parseValue f (c :: r2) with
        | none => none
        | some (v, r3) =>
          match parseArrRest f r3 with
          | none => none
          | some (vs, r4) => some (.arr (.cons v vs), r4)
/-- After one array element: either `, element ...` or `]`. -/
def parseArrRest : Nat → List Char → Option (JsonArr × List Char)
  | 0, _ => none
  | f + 1, r =>
    match skipWs r with
    | [] => none
    | c :: r2 =>
      if c = ',' then
        match parseValue f r2 with
        | none => none
        | some (v, r3) =>
          match parseArrRest f r3 with
          | none => none
          | some (vs, r4) => some (.cons v vs, r4)
      else if c = ']' then some (.nil, r2)
      else none
/-- Object contents after the opening brace. -/
def parseObjBody : Nat → List Char → Option (Json × List Char)
  | 0, _ => none
  | f + 1, r =>
    match skipWs r with
    | [] => none
    | c :: r2 =>
      if c = '\x7d' then some (.obj .nil, r2)
      else if c = '"' then
        match parseStringBody r2 with
        | none => none
        | some (k, r3) =>
          match skipWs r3 with
          | [] => none
          | c2 :: r4 =>
            if c2 = ':' then
              match parseValue f r4 with
              | none => none
              | some (v, r5) =>
                match parseObjRest f r5 with
                | none => none
                | some (kvs, r6) => some (.obj (.cons (String.mk k) v kvs), r6)
            else none
      else none
/-- After one object member: either `, "key": value ...` or `}`. -/
def parseObjRest : Nat → List Char → Option (JsonObj × List Char)
  | 0, _ => none
  | f + 1, r =>
    match skipWs r with
    | [] => none
    | c :: r2 =>
      if c = ',' then
        match skipWs r2 with
        | [] => none
        | c2 :: r3 =>
          if c2 = '"' then
            match parseStringBody r3 with
            | none => none
            | some (k, r4) =>
              match skipWs r4 with
              | [] => none
              | c3 :: r5 =>
                if c3 = ':' then
                  match parseValue f r5 with
                  | none => none
                  | some (v, r6) =>
                    match parseObjRest f r6 with
                    | none => none
                    | some (kvs, r7) => some (.cons (String.mk k) v kvs, r7)
                else none
          else none
      else if c = '\x7d' then some (.nil, r2)
      else none
end

/-- `json.loads`: parse one value, then require only trailing whitespace. -/
def loads (s : String) : Option Json :=
  let cs := s.toList
  match parseValue (3 * cs.length + 3) cs with
  | some (j, rest) => if (skipWs rest).isEmpty then some j else none
  | none => none

/-! ## The history store

`_save_content_history` and `get_content_history`, as transitions on the
backing file `output/content_history.json`; `none` models the absent
file, `some s` a file with text `s`. -/

/-- Errors surfaced by the modelled Python code paths:
`json.JSONDecodeError` from `json.load`, and the `AttributeError` raised
by `history.append(...)` when the decoded JSON is not a list. -/
inductive PyError where
  | jsonDecodeError : PyError
  | attributeError : PyError
deriving DecidableEq, Repr

/-- The history entry dict appended by `_save_content_history`, with keys
in source insertion order: `timestamp`, `topic`, `content`. -/
def entryJson (ts t c : String) : Json :=
  .obj (.cons "timestamp" (.str ts)
    (.cons "topic" (.str t) (.cons "content" (.str c) .nil)))

/-- `InstagramContentGenerator._save_content_history`: load the existing
array (absent file means empty), append one entry with timestamp `ts`,
write the whole array back. Returns the new file text. -/
def save_content_history (file : Option String) (ts t c : String) :
    Except PyError String :=
  match file with
  | none => .ok (dumps (.arr (.cons (entryJson ts t c) .nil)))
  | some s =>
    match loads s with
    | none => .error .jsonDecodeError
    | some (.arr xs) =>
      .ok (dumps (.arr (xs.append (.cons (entryJson ts t c) .nil))))
    | some _ => .error .attributeError

/-- `InstagramContentGenerator.get_content_history`: empty list if the
file is absent, otherwise whatever JSON value the file decodes to (no
schema validation occurs in the source). -/
def get_content_history (file : Option String) : Except PyError Json :=
  match file with
  | none => .ok (.arr .nil)
  | some s =>
    match loads s with
    | some j => .ok j
    | none => .error .jsonDecodeError

/-- A sequence of `_save_content_history` calls, stopping at the first
error. -/
def appendAll (file : Option String) :
    List (String × String × String) → Except PyError (Option String)
  | [] => .ok file
  | (ts, t, c) :: rest =>
    match save_content_history file ts t c with
    | .error e => .error e
    | .ok s => appendAll (some s) rest

/-- `get_content_history` after a sequence of appends starting from the
absent file. -/
def readAfterAppends (xs : List (String × String × String)) : Except PyError Json :=
  match appendAll none xs with
  | .error e => .error e
  | .ok f => get_content_history f

/-- The JSON array holding one entry per append, in append order. -/
def entriesArr : List (String × String × String) → JsonArr
  | [] => .nil
  | (ts, t, c) :: rest => .cons (entryJson ts t c) (entriesArr rest)

/-- An object whose values are all strings, as written by the store. -/
def strMembers : List (String × String) → JsonObj
  | [] => .nil
  | (k, v) :: rest => .cons k (.str v) (strMembers rest)

/-- Modelled from the spec: "a valid JSON array of objects each
containing `timestamp`, `topic`, `content`" — the schema the spec claims
`read_all` enforces. Used only to compare the spec's claim with the
code's actual (absent) validation. -/
def hasKey : JsonObj → String → Bool
  | .nil, _ => false
  | .cons k _ rest, key => k = key || hasKey rest key

/-- Modelled from the spec: one conforming history entry. -/
def validHistoryEntry : Json → Bool
  | .obj kvs => hasKey kvs "timestamp" && hasKey kvs "topic" && hasKey kvs "content"
  | _ => false

/-- Modelled from the spec: all array members are conforming entries. -/
def validHistoryArr : JsonArr → Bool
  | .nil => true
  | .cons x xs => validHistoryEntry x && validHistoryArr xs

/-- Modelled from the spec: a conforming history file value. -/
def validHistoryJson : Json → Bool
  | .arr xs => validHistoryArr xs
  | _ => false

/-! ## Timestamps

`datetime.now().isoformat()`. The wall clock is a parameter: a
`PyDateTime` value stands for one `datetime.now()` observation. -/

/-- The fields of a Python `datetime` value. -/
structure PyDateTime where
  year : Nat
  month : Nat
  day : Nat
  hour : Nat
  minute : Nat
  second : Nat
  microsecond : Nat
deriving DecidableEq, Repr

/-- Field bounds of every value `datetime.now()` can return. -/
def PyDateTime.Valid (d : PyDateTime) : Prop :=
  1 ≤ d.year ∧ d.year ≤ 9999 ∧ 1 ≤ d.month ∧ d.month ≤ 12 ∧
  1 ≤ d.day ∧ d.day ≤ 31 ∧ d.hour ≤ 23 ∧ d.minute ≤ 59 ∧
  d.second ≤ 59 ∧ d.microsecond ≤ 999999

instance (d : PyDateTime) : Decidable d.Valid := by
  unfold PyDateTime.Valid; infer_instance

/-- One decimal digit character. -/
def digitChar (n : Nat) : Char := Char.ofNat (48 + n)

/-- Two-digit zero-padded decimal. -/
def pad2 (n : Nat) : List Char := [digitChar (n / 10 % 10), digitChar (n % 10)]

/-- Four-digit zero-padded decimal. -/
def pad4 (n : Nat) : List Char :=
  [digitChar (n / 1000 % 10), digitChar (n / 100 % 10),
   digitChar (n / 10 % 10), digitChar (n % 10)]

/-- Six-digit zero-padded decimal. -/
def pad6 (n : Nat) : List Char :=
  [digitChar (n / 100000 % 10), digitChar (n / 10000 % 10),
   digitChar (n / 1000 % 10), digitChar (n / 100 % 10),
   digitChar (n / 10 % 10), digitChar (n % 10)]

/-- `datetime.isoformat()`: `YYYY-MM-DDTHH:MM:SS[.ffffff]`, the
microsecond part omitted exactly when it is zero. -/
def isoformat (d : PyDateTime) : String :=
  String.mk (pad4 d.year ++ '-' :: pad2 d.month ++ '-' :: pad2 d.day
    ++ 'T' :: pad2 d.hour ++ ':' :: pad2 d.minute ++ ':' :: pad2 d.second
    ++ (if d.microsecond = 0 then [] else '.' :: pad6 d.microsecond))

/-- "Parseable ISO-8601 timestamp": shape check
`DDDD-DD-DDTDD:DD:DD` optionally followed by `.DDDDDD`. -/
def isIso8601 (s : String) : Bool :=
  match s.toList with
  | y1 :: y2 :: y3 :: y4 :: '-' :: m1 :: m2 :: '-' :: d1 :: d2 :: 'T'
      :: h1 :: h2 :: ':' :: mi1 :: mi2 :: ':' :: s1 :: s2 :: rest =>
    ([y1, y2, y3, y4, m1, m2, d1, d2, h1, h2, mi1, mi2, s1, s2].all Char.isDigit) &&
    (match rest with
     | [] => true
     | '.' :: fs => fs.length = 6 && fs.all Char.isDigit
     | _ => false)
  | _ => false

/-! ## Orchestration

`generate_content` and `PromptInterface.process_prompt`. The external
multi-agent call `content_team.print_response(topic)` is an opaque
service function; everything the source passes to it is its argument. -/

/-- The dict returned by `generate_content`. -/
structure GenResult where
  topic : String
  timestamp : String
  content : String
deriving DecidableEq, Repr

/-- `InstagramContentGenerator.generate_content`. `nowSave` and
`nowResult` are the two separate `datetime.now()` observations (one made
inside `_save_content_history`, one for the returned dict). -/
def generate_content (service : String → String) (nowSave nowResult : PyDateTime)
    (file : Option String) (topic : String) (save_to_file : Bool) :
    Except PyError (GenResult × Option String) :=
  let response := service topic
  if save_to_file then
    match save_content_history file (isoformat nowSave) topic response with
    | .error e => .error e
    | .ok s =>
      .ok ({ topic := topic, timestamp := isoformat nowResult, content := response },
        some s)
  else
    .ok ({ topic := topic, timestamp := isoformat nowResult, content := response },
      file)

/-- The dict returned by `process_prompt`. -/
structure ProcessResult where
  original_prompt : String
  parsed_instruction : ParsedInstruction
  generated_content : GenResult
deriving DecidableEq, Repr

/-- `PromptInterface.process_prompt`. -/
def process_prompt (service : String → String) (nowSave nowResult : PyDateTime)
    (file : Option String) (p : String) :
    Except PyError (ProcessResult × Option String) :=
  let pi := parse_instruction p
  match generate_content service nowSave nowResult file pi.topic pi.save_file with
  | .error e => .error e
  | .ok (res, f2) =>
    .ok ({ original_prompt := p, parsed_instruction := pi, generated_content := res },
      f2)

/-- The argument pair that `process_prompt` hands to `generate_content`
(`topic=parsed_instruction['topic']`,
`save_to_file=parsed_instruction.get('save_file', True)`). -/
def process_prompt_gen_args (p : String) : String × Bool :=
  ((parse_instruction p).topic, (parse_instruction p).save_file)

/-! ## Lemmas: whitespace splitting and joining -/

theorem pySplitGo_nil (acc : List Char) :
    pySplitGo [] acc = if acc.isEmpty then [] else [acc.reverse] := rfl

theorem pySplitGo_cons_ws {c : Char} (h : pyWs c = true) (l acc : List Char) :
    pySplitGo (c :: l) acc =
      if acc.isEmpty then pySplitGo l [] else acc.reverse :: pySplitGo l [] := by
  simp [pySplitGo, h]

theorem pySplitGo_cons_not {c : Char} (h : pyWs c = false) (l acc : List Char) :
    pySplitGo (c :: l) acc = pySplitGo l (c :: acc) := by
  simp [pySplitGo, h]

theorem pySplitGo_token (tok : List Char) (h : ∀ c ∈ tok, pyWs c = false)
    (r acc : List Char) :
    pySplitGo (tok ++ r) acc = pySplitGo r (tok.reverse ++ acc) := by
  induction tok generalizing acc with
  | nil => simp
  | cons c cs ih =>
    have hc : pyWs c = false := h c (by simp)
    rw [List.cons_append, pySplitGo_cons_not hc, ih (fun d hd => h d (by simp [hd]))]
    simp [List.append_assoc]

theorem pySplitGo_wsfree (l : List Char) :
    ∀ acc, (∀ c ∈ acc, pyWs c = false) →
      ∀ t ∈ pySplitGo l acc, t ≠ [] ∧ ∀ c ∈ t, pyWs c = false := by
  induction l with
  | nil =>
    intro acc hacc t ht
    rw [pySplitGo_nil] at ht
    by_cases h : acc.isEmpty
    · simp [h] at ht
    · simp [h] at ht
      subst ht
      refine ⟨?_, fun c hc => hacc c (List.mem_reverse.mp hc)⟩
      simp only [List.isEmpty_iff] at h
      simpa using h
  | cons c cs ih =>
    intro acc hacc t ht
    by_cases hws : pyWs c = true
    · rw [pySplitGo_cons_ws hws] at ht
      by_cases hacc2 : acc.isEmpty
      · rw [if_pos hacc2] at ht
        exact ih [] (by simp) t ht
      · rw [if_neg hacc2] at ht
        rcases List.mem_cons.mp ht with rfl | ht2
        · refine ⟨?_, fun d hd => hacc d (List.mem_reverse.mp hd)⟩
          simp only [List.isEmpty_iff] at hacc2
          simpa using hacc2
        · exact ih [] (by simp) t ht2
    · have hws2 : pyWs c = false := by simpa using hws
      rw [pySplitGo_cons_not hws2] at ht
      refine ih (c :: acc) ?_ t ht
      intro d hd
      rcases List.mem_cons.mp hd with rfl | hd2
      · exact hws2
      · exact hacc d hd2

theorem pySplit_props (l : List Char) :
    ∀ t ∈ pySplit l, t ≠ [] ∧ ∀ c ∈ t, pyWs c = false :=
  pySplitGo_wsfree l [] (by simp)

theorem joinSp_ne_nil {t : List Char} (h : t ≠ []) (ts : List (List Char)) :
    joinSp (t :: ts) ≠ [] := by
  cases ts with
  | nil => simpa [joinSp] using h
  | cons u us => simp [joinSp]

theorem pySplit_joinSp (ts : List (List Char))
    (h1 : ∀ t ∈ ts, t ≠ []) (h2 : ∀ t ∈ ts, ∀ c ∈ t, pyWs c = false) :
    pySplit (joinSp ts) = ts := by
  induction ts with
  | nil => rfl
  | cons t us ih =>
    have ht1 : t ≠ [] := h1 t (by simp)
    have ht2 : ∀ c ∈ t, pyWs c = false := h2 t (by simp)
    have htrev : t.reverse.isEmpty = false := by
      simp only [Bool.eq_false_iff, ne_eq, List.isEmpty_iff, List.reverse_eq_nil_iff]
      exact ht1
    cases us with
    | nil =>
      show pySplitGo (joinSp [t]) [] = [t]
      have : joinSp [t] = t ++ [] := by simp [joinSp]
      rw [this, pySplitGo_token t ht2 [] [], List.append_nil, pySplitGo_nil,
        if_neg (by simp [htrev])]
      simp
    | cons u vs =>
      show pySplitGo (joinSp (t :: u :: vs)) [] = t :: u :: vs
      rw [joinSp, pySplitGo_token t ht2 (' ' :: joinSp (u :: vs)) [], List.append_nil,
        pySplitGo_cons_ws (by decide), if_neg (by simp [htrev])]
      rw [show pySplitGo (joinSp (u :: vs)) [] = pySplit (joinSp (u :: vs)) from rfl,
        ih (fun x hx => h1 x (by simp [hx])) (fun x hx => h2 x (by simp [hx]))]
      simp

/-! ## Claims C1 and C8: topic extraction -/

/-- Claim C1: for every instruction string, the extracted topic equals the
input's whitespace-split tokens whose lower-cased form is not in the fixed
stop-word set, joined with single spaces with original case preserved; if
every token is a stop-word (in particular if there are no tokens), the
original full text is returned verbatim; consequently `parse(s).topic` is
non-empty for every non-empty `s`. -/
theorem claim_C1 (s : String) :
    extract_topic s =
      (if ((pySplit s.toList).filter
            (fun w => !(stopChars.contains (w.map pyLowerChar)))) = [] then s
       else String.mk (joinSp ((pySplit s.toList).filter
            (fun w => !(stopChars.contains (w.map pyLowerChar))))))
    ∧ (parse_instruction s).topic = extract_topic s
    ∧ (s ≠ "" → (parse_instruction s).topic ≠ "") := by
  refine ⟨?_, rfl, ?_⟩
  · simp only [extract_topic]
    by_cases h : ((pySplit s.toList).filter
        (fun w => !(stopChars.contains (w.map pyLowerChar)))).isEmpty
    · rw [if_pos h, if_pos (List.isEmpty_iff.mp h)]
    · rw [if_neg h, if_neg (fun hc => h (List.isEmpty_iff.mpr hc))]
  · intro hs
    show extract_topic s ≠ ""
    simp only [extract_topic]
    by_cases h : ((pySplit s.toList).filter
        (fun w => !(stopChars.contains (w.map pyLowerChar)))).isEmpty
    · rw [if_pos h]; exact hs
    · rw [if_neg h]
      rcases hlist : ((pySplit s.toList).filter
          (fun w => !(stopChars.contains (w.map pyLowerChar)))) with _ | ⟨t, ts⟩
      · exact absurd (List.isEmpty_iff.mpr hlist) h
      · rw [hlist]
        have htmem : t ∈ pySplit s.toList := by
          have ht : t ∈ ((pySplit s.toList).filter
              (fun w => !(stopChars.contains (w.map pyLowerChar)))) := by
            rw [hlist]; simp
          exact List.mem_of_mem_filter ht
        have htne : t ≠ [] := (pySplit_props s.toList t htmem).1
        have hjoin := joinSp_ne_nil htne ts
        intro hcontra
        exact hjoin (by simpa using congrArg String.data hcontra)

/-- Claim C8: topic extraction is idempotent, including in the fallback
case where every token is a stop-word. -/
theorem claim_C8 (s : String) :
    extract_topic (extract_topic s) = extract_topic s := by
  by_cases h : ((pySplit s.toList).filter
      (fun w => !(stopChars.contains (w.map pyLowerChar)))).isEmpty
  · have h1 : extract_topic s = s := by
      simp only [extract_topic]; rw [if_pos h]
    rw [h1]; exact h1
  · have h1 : extract_topic s = String.mk (joinSp ((pySplit s.toList).filter
        (fun w => !(stopChars.contains (w.map pyLowerChar))))) := by
      simp only [extract_topic]; rw [if_neg h]
    rw [h1]
    have hsub : ∀ t ∈ ((pySplit s.toList).filter
        (fun w => !(stopChars.contains (w.map pyLowerChar)))), t ∈ pySplit s.toList :=
      fun t ht => List.mem_of_mem_filter ht
    have hresplit : pySplit (joinSp ((pySplit s.toList).filter
        (fun w => !(stopChars.contains (w.map pyLowerChar)))))
        = ((pySplit s.toList).filter
            (fun w => !(stopChars.contains (w.map pyLowerChar)))) :=
      pySplit_joinSp _ (fun t ht => (pySplit_props s.toList t (hsub t ht)).1)
        (fun t ht => (pySplit_props s.toList t (hsub t ht)).2)
    have hfilter : ((pySplit s.toList).filter
        (fun w => !(stopChars.contains (w.map pyLowerChar)))).filter
          (fun w => !(stopChars.contains (w.map pyLowerChar)))
        = ((pySplit s.toList).filter
            (fun w => !(stopChars.contains (w.map pyLowerChar)))) := by
      apply List.filter_eq_self.mpr
      intro a ha
      exact (List.mem_filter.mp ha).2
    simp only [extract_topic]
    rw [show (String.mk (joinSp ((pySplit s.toList).filter
        (fun w => !(stopChars.contains (w.map pyLowerChar)))))).toList
      = joinSp ((pySplit s.toList).filter
        (fun w => !(stopChars.contains (w.map pyLowerChar)))) from rfl]
    rw [hresplit, hfilter, if_neg h]

/-! ## Generic lemmas: first match and keyed filtering -/

theorem find_first {α : Type} (l : List α) (p : α → Bool) :
    ∀ (i : Nat) (hi : i < l.length), p (l.get ⟨i, hi⟩) = true →
      ∃ j, ∃ hj : j < l.length, j ≤ i ∧ p (l.get ⟨j, hj⟩) = true ∧
        (∀ k (hk : k < l.length), k < j → p (l.get ⟨k, hk⟩) = false) ∧
        l.find? p = some (l.get ⟨j, hj⟩) := by
  induction l with
  | nil => intro i hi; exact absurd hi (by simp)
  | cons a l ih =>
    intro i hi hp
    by_cases ha : p a = true
    · refine ⟨0, by simp, Nat.zero_le _, by simpa using ha, ?_, ?_⟩
      · intro k hk hk0; omega
      · simp [List.find?, ha]
    · have ha2 : p a = false := by simpa using ha
      cases i with
      | zero => exact absurd (by simpa using hp) ha
      | succ i2 =>
        have hi2 : i2 < l.length := by simpa [Nat.succ_lt_succ_iff] using hi
        have hp2 : p (l.get ⟨i2, hi2⟩) = true := by simpa using hp
        obtain ⟨j, hj, hji, hpj, hmin, hfind⟩ := ih i2 hi2 hp2
        refine ⟨j + 1, by simpa [Nat.succ_lt_succ_iff] using hj, by omega,
          by simpa using hpj, ?_, ?_⟩
        · intro k hk hkj
          cases k with
          | zero => simpa using ha2
          | succ k2 =>
            have hk2 : k2 < l.length := by simpa [Nat.succ_lt_succ_iff] using hk
            simpa using hmin k2 hk2 (by omega)
        · simp [List.find?, ha2]
          simpa using hfind

theorem fst_nodup_inj {α β : Type} (l : List (α × β))
    (hnodup : (l.map Prod.fst).Nodup) :
    ∀ e1 ∈ l, ∀ e2 ∈ l, e1.1 = e2.1 → e1 = e2 := by
  induction l with
  | nil => intro e1 he1; exact absurd he1 (by simp)
  | cons a l ih =>
    have hna : a.1 ∉ l.map Prod.fst := by
      have := hnodup
      rw [List.map_cons, List.nodup_cons] at this
      exact this.1
    have hnl : (l.map Prod.fst).Nodup := by
      have := hnodup
      rw [List.map_cons, List.nodup_cons] at this
      exact this.2
    intro e1 he1 e2 he2 heq
    rcases List.mem_cons.mp he1 with rfl | he1b
    · rcases List.mem_cons.mp he2 with rfl | he2b
      · rfl
      · exact absurd (heq ▸ List.mem_map_of_mem Prod.fst he2b) hna
    · rcases List.mem_cons.mp he2 with rfl | he2b
      · exact absurd (heq ▸ List.mem_map_of_mem Prod.fst he1b) hna
      · exact ih hnl e1 he1b e2 he2b heq

theorem mem_map_fst_filter {α β : Type} [DecidableEq α] (l : List (α × β))
    (p : α × β → Bool) (tag : α) (kws : β)
    (hnodup : (l.map Prod.fst).Nodup) (hmem : (tag, kws) ∈ l) :
    tag ∈ (l.filter p).map Prod.fst ↔ p (tag, kws) = true := by
  constructor
  · intro h
    obtain ⟨e, hef, he1⟩ := List.mem_map.mp h
    have hel : e ∈ l := List.mem_of_mem_filter hef
    have hpe : p e = true := (List.mem_filter.mp hef).2
    have : e = (tag, kws) := fst_nodup_inj l hnodup e hel (tag, kws) hmem (by simpa using he1)
    rw [← this]; exact hpe
  · intro h
    exact List.mem_map_of_mem Prod.fst (List.mem_filter.mpr ⟨hmem, h⟩)

/-! ## Claims C3, C6, C7: style, requirements, save flag -/

/-- Claim C3: style extraction returns the first style in the fixed
declaration order (casual, professional, fun, elegant, educational) whose
keyword list has a case-insensitive substring match (i.e. a substring
match against the lower-cased text), and "conversational" when none
matches; an instruction matching keywords of two styles never yields the
later-declared one. -/
theorem claim_C3 (text : String) :
    ((style_keywords.all (fun e => !(e.2.any (fun k => strIn k (pyLower text))))) = true →
      extract_style (pyLower text) = "conversational")
    ∧ (∀ (i : Nat) (hi : i < style_keywords.length),
        ((style_keywords.get ⟨i, hi⟩).2.any (fun k => strIn k (pyLower text))) = true →
        ∃ j, ∃ hj : j < style_keywords.length, j ≤ i ∧
          ((style_keywords.get ⟨j, hj⟩).2.any (fun k => strIn k (pyLower text))) = true ∧
          (∀ (k2 : Nat) (hk : k2 < style_keywords.length), k2 < j →
            ((style_keywords.get ⟨k2, hk⟩).2.any (fun k => strIn k (pyLower text))) = false) ∧
          extract_style (pyLower text) = (style_keywords.get ⟨j, hj⟩).1)
    ∧ (∀ (i j : Nat) (hi : i < style_keywords.length) (hj : j < style_keywords.length),
        i < j →
        ((style_keywords.get ⟨i, hi⟩).2.any (fun k => strIn k (pyLower text))) = true →
        extract_style (pyLower text) ≠ (style_keywords.get ⟨j, hj⟩).1) := by
  have hmain : ∀ (i : Nat) (hi : i < style_keywords.length),
      ((style_keywords.get ⟨i, hi⟩).2.any (fun k => strIn k (pyLower text))) = true →
      ∃ j, ∃ hj : j < style_keywords.length, j ≤ i ∧
        ((style_keywords.get ⟨j, hj⟩).2.any (fun k => strIn k (pyLower text))) = true ∧
        (∀ (k2 : Nat) (hk : k2 < style_keywords.length), k2 < j →
          ((style_keywords.get ⟨k2, hk⟩).2.any (fun k => strIn k (pyLower text))) = false) ∧
        extract_style (pyLower text) = (style_keywords.get ⟨j, hj⟩).1 := by
    intro i hi hp
    obtain ⟨j, hj, hji, hpj, hmin, hfind⟩ :=
      find_first style_keywords (fun e => e.2.any (fun k => strIn k (pyLower text))) i hi hp
    exact ⟨j, hj, hji, hpj, hmin, by simp [extract_style, hfind]⟩
  refine ⟨?_, hmain, ?_⟩
  · intro hall
    have hnone : style_keywords.find?
        (fun e => e.2.any (fun k => strIn k (pyLower text))) = none := by
      rw [List.find?_eq_none]
      intro e he
      have := List.all_eq_true.mp hall e he
      simpa using this
    simp [extract_style, hnone]
  · intro i j hi hj hij hp heq
    obtain ⟨j0, hj0, hj0i, _, _, hres⟩ := hmain i hi hp
    have hdistinct : ∀ i2 j2 : Fin style_keywords.length, i2 ≠ j2 →
        (style_keywords.get i2).1 ≠ (style_keywords.get j2).1 := by decide
    exact hdistinct ⟨j0, hj0⟩ ⟨j, hj⟩ (by simp [Fin.ext_iff]; omega) (hres ▸ heq)

/-- Claim C6: requirement extraction returns exactly the tags whose
keyword list has a substring match in the lower-cased text, each tag
decided independently, in the fixed declaration order of the tags. -/
theorem claim_C6 (text : String) :
    extract_requirements (pyLower text)
      = ((requirement_patterns.filter
          (fun e => e.2.any (fun k => strIn k (pyLower text)))).map Prod.fst)
    ∧ (∀ tag kws, (tag, kws) ∈ requirement_patterns →
        (tag ∈ extract_requirements (pyLower text) ↔
          kws.any (fun k => strIn k (pyLower text)) = true))
    ∧ List.Sublist (extract_requirements (pyLower text))
        (requirement_patterns.map Prod.fst) := by
  have hnodup : (requirement_patterns.map Prod.fst).Nodup := by decide
  refine ⟨rfl, ?_, ?_⟩
  · intro tag kws hmem
    exact mem_map_fst_filter requirement_patterns
      (fun e => e.2.any (fun k => strIn k (pyLower text))) tag kws hnodup hmem
  · exact List.Sublist.map Prod.fst (List.filter_sublist requirement_patterns)

/-- Claim C7: the parsed save flag is true iff the lower-cased text
contains neither "no save" nor "don't save". -/
theorem claim_C7 (p : String) :
    (parse_instruction p).save_file = true ↔
      (strIn "no save" (pyLower p) = false ∧ strIn "don\x27t save" (pyLower p) = false) := by
  show (!(strIn "no save" (pyLower p)) && !(strIn "don\x27t save" (pyLower p))) = true ↔ _
  simp

/-! ## Claim C2: the worked example -/

/-- Claim C2 fails on the code: for the example instruction, the topic
keeps the non-stop-words "a fun and casual", and the style is "casual"
(declared first), not "fun". -/
theorem claim_C2_counterexample :
    ¬ ((parse_instruction
          "Create a fun and casual post about Italian Chianti wine with a call to action").topic
        = "Italian Chianti wine with a call to action"
      ∧ (parse_instruction
          "Create a fun and casual post about Italian Chianti wine with a call to action").style
        = "fun") := by
  decide

/-- Claim C2 as amended: the example parses to topic
"a fun and casual Italian Chianti wine with a call to action", style
"casual", requirements exactly [include_cta], and save true. -/
theorem claim_C2_amended :
    parse_instruction
        "Create a fun and casual post about Italian Chianti wine with a call to action"
      = { topic := "a fun and casual Italian Chianti wine with a call to action",
          style := "casual",
          requirements := ["include_cta"],
          save_file := true } := by
  decide

/-! ## Lemmas: JSON string escaping round-trips through the parser -/

theorem hexVal_hexDigitChar (n : Nat) (h : n < 16) :
    hexVal (hexDigitChar n) = n := by
  interval_cases n <;> decide

theorem parseStringBody_escChar (c : Char) (r : List Char) :
    parseStringBody (escChar c ++ r)
      = (parseStringBody r).map (fun q => (c :: q.1, q.2)) := by
  by_cases h1 : c = '"'
  · subst h1
    rw [show escChar '"' ++ r = '\\' :: '"' :: r from rfl]
    conv_lhs => rw [parseStringBody.eq_def]
    simp [escDecode]
  by_cases h2 : c = '\\'
  · subst h2
    rw [show escChar '\\' ++ r = '\\' :: '\\' :: r from rfl]
    conv_lhs => rw [parseStringBody.eq_def]
    simp [escDecode]
  by_cases h3 : c = '\x08'
  · subst h3
    rw [show escChar '\x08' ++ r = '\\' :: 'b' :: r from rfl]
    conv_lhs => rw [parseStringBody.eq_def]
    simp [escDecode]
  by_cases h4 : c = '\x0c'
  · subst h4
    rw [show escChar '\x0c' ++ r = '\\' :: 'f' :: r from rfl]
    conv_lhs => rw [parseStringBody.eq_def]
    simp [escDecode]
  by_cases h5 : c = '\n'
  · subst h5
    rw [show escChar '\n' ++ r = '\\' :: 'n' :: r from rfl]
    conv_lhs => rw [parseStringBody.eq_def]
    simp [escDecode]
  by_cases h6 : c = '\r'
  · subst h6
    rw [show escChar '\r' ++ r = '\\' :: 'r' :: r from rfl]
    conv_lhs => rw [parseStringBody.eq_def]
    simp [escDecode]
  by_cases h7 : c = '\t'
  · subst h7
    rw [show escChar '\t' ++ r = '\\' :: 't' :: r from rfl]
    conv_lhs => rw [parseStringBody.eq_def]
    simp [escDecode]
  by_cases h8 : c.toNat < 32
  · have hdiv : c.toNat / 16 < 16 := by omega
    have hmod : c.toNat % 16 < 16 := by omega
    rw [show escChar c = '\\' :: 'u' :: '0' :: '0' :: hexDigitChar (c.toNat / 16)
        :: hexDigitChar (c.toNat % 16) :: [] from by
      simp only [escChar, if_neg h1, if_neg h2, if_neg h3, if_neg h4, if_neg h5,
        if_neg h6, if_neg h7, if_pos h8]]
    simp only [List.cons_append, List.nil_append]
    conv_lhs => rw [parseStringBody.eq_def]
    have hc1 : Char.ofNat (((0 * 16 + 0) * 16 + c.toNat / 16) * 16 + c.toNat % 16) = c := by
      rw [show ((0 * 16 + 0) * 16 + c.toNat / 16) * 16 + c.toNat % 16 = c.toNat by omega,
        Char.ofNat_toNat]
    have hc2 : Char.ofNat (c.toNat / 16 * 16 + c.toNat % 16) = c := by
      rw [show c.toNat / 16 * 16 + c.toNat % 16 = c.toNat by omega, Char.ofNat_toNat]
    have hlt1 : ((0 * 16 + 0) * 16 + c.toNat / 16) * 16 + c.toNat % 16 < 55296 := by omega
    have hlt2 : c.toNat / 16 * 16 + c.toNat % 16 < 55296 := by omega
    simp [show hexVal '0' = 0 from rfl, hexVal_hexDigitChar _ hdiv,
      hexVal_hexDigitChar _ hmod, hdiv, hmod, hc1, hc2, hlt1, hlt2, Char.ofNat_toNat]
  · have h8b : ¬ c.toNat < 32 := h8
    rw [show escChar c = [c] from by
      simp only [escChar, if_neg h1, if_neg h2, if_neg h3, if_neg h4, if_neg h5,
        if_neg h6, if_neg h7, if_neg h8b]]
    simp only [List.cons_append, List.nil_append]
    conv_lhs => rw [parseStringBody.eq_def]
    simp [h1, h2, h8b]

theorem parseStringBody_escBody (s : List Char) (r : List Char) :
    parseStringBody (escBody s ++ '"' :: r) = some (s, r) := by
  induction s with
  | nil =>
    show parseStringBody ('"' :: r) = some ([], r)
    conv_lhs => rw [parseStringBody.eq_def]
    simp
  | cons c cs ih =>
    rw [escBody, List.append_assoc, parseStringBody_escChar, ih]
    rfl

/-! ## Lemmas: parsing the dumper's output -/

theorem skipWs_cons_ws {c : Char} (h : jsonWs c = true) (l : List Char) :
    skipWs (c :: l) = skipWs l := by
  simp [skipWs, List.dropWhile_cons, h]

theorem skipWs_cons_not {c : Char} (h : jsonWs c = false) (l : List Char) :
    skipWs (c :: l) = c :: l := by
  simp [skipWs, List.dropWhile_cons, h]

theorem skipWs_replicate (n : Nat) (l : List Char) :
    skipWs (List.replicate n ' ' ++ l) = skipWs l := by
  induction n with
  | zero => simp
  | succ n ih =>
    rw [List.replicate_succ, List.cons_append,
      skipWs_cons_ws (show jsonWs ' ' = true from rfl), ih]

theorem skipWs_nlIndent (lvl : Nat) (l : List Char) :
    skipWs (nlIndent lvl ++ l) = skipWs l := by
  rw [nlIndent, List.cons_append,
    skipWs_cons_ws (show jsonWs '\n' = true from rfl), skipWs_replicate]

theorem skipWs_idem (l : List Char) : skipWs (skipWs l) = skipWs l := by
  induction l with
  | nil => rfl
  | cons c cs ih =>
    by_cases h : jsonWs c = true
    · rw [skipWs_cons_ws h]; exact ih
    · have h2 : jsonWs c = false := by simpa using h
      rw [skipWs_cons_not h2, skipWs_cons_not h2]

theorem parseValue_skipWs (f : Nat) (l : List Char) :
    parseValue (f + 1) (skipWs l) = parseValue (f + 1) l := by
  conv_lhs => rw [parseValue.eq_def]
  conv_rhs => rw [parseValue.eq_def]
  simp [skipWs_idem]

theorem encodeString_cons (s : String) (r : List Char) :
    encodeString s ++ r = '"' :: (escBody s.toList ++ '"' :: r) := by
  simp [encodeString]

theorem parseValue_encodeString (f : Nat) (s : String) (r : List Char) :
    parseValue (f + 1) (encodeString s ++ r) = some (.str s, r) := by
  rw [encodeString_cons]
  conv_lhs => rw [parseValue.eq_def]
  simp [skipWs_cons_not (show jsonWs '"' = false from rfl), parseStringBody_escBody]

theorem parseValue_cons_ws {c : Char} (h : jsonWs c = true) (f : Nat) (l : List Char) :
    parseValue (f + 1) (c :: l) = parseValue (f + 1) l := by
  rw [← parseValue_skipWs f (c :: l), skipWs_cons_ws h, parseValue_skipWs]

theorem parseValue_str_cons (f : Nat) (s : String) (r : List Char) :
    parseValue (f + 1) ('"' :: (escBody s.toList ++ '"' :: r)) = some (.str s, r) := by
  rw [← encodeString_cons]; exact parseValue_encodeString f s r

theorem parseValue_str_data (f : Nat) (s : String) (r : List Char) :
    parseValue (f + 1) ('"' :: (escBody s.data ++ '"' :: r)) = some (.str s, r) :=
  parseValue_str_cons f s r

theorem parseStringBody_escData (s : String) (r : List Char) :
    parseStringBody (escBody s.data ++ '"' :: r) = some (s.data, r) :=
  parseStringBody_escBody s.toList r

theorem parseObjRest_close (f lvl : Nat) (r : List Char) :
    parseObjRest (f + 1) (nlIndent lvl ++ '\x7d' :: r) = some (.nil, r) := by
  conv_lhs => rw [parseObjRest.eq_def]
  simp [skipWs_nlIndent, skipWs_cons_not (show jsonWs '\x7d' = false from rfl)]

theorem parseObjRest_cons (f lvl : Nat) (k v : String) (rest2 : List Char) :
    parseObjRest (f + 2)
        (',' :: (nlIndent lvl ++ (encodeString k ++ ':' :: ' ' :: (encodeString v ++ rest2))))
      = (parseObjRest (f + 1) rest2).map
          (fun q => (JsonObj.cons k (Json.str v) q.1, q.2)) := by
  conv_lhs => rw [parseObjRest.eq_def]
  simp [skipWs_cons_not (show jsonWs ',' = false from rfl),
    skipWs_nlIndent, encodeString_cons,
    skipWs_cons_not (show jsonWs '"' = false from rfl),
    parseStringBody_escBody,
    skipWs_cons_not (show jsonWs ':' = false from rfl),
    parseValue_cons_ws (show jsonWs ' ' = true from rfl),
    parseValue_str_cons, parseValue_str_data, parseStringBody_escData]
  rcases hpo : parseObjRest (f + 1) rest2 with _ | ⟨kvs, r7⟩ <;> simp

theorem skipWs_encodeString (s : String) (l : List Char) :
    skipWs (encodeString s ++ l) = '"' :: (escBody s.toList ++ '"' :: l) := by
  rw [encodeString_cons, skipWs_cons_not (show jsonWs '"' = false from rfl)]

theorem parseObjRest_strMembers (ms : List (String × String)) :
    ∀ (f lvlm lvlo : Nat) (r : List Char),
      parseObjRest (f + 2 * ms.length + 1)
        (dumpObjRest lvlm (strMembers ms) ++ (nlIndent lvlo ++ '\x7d' :: r))
        = some (strMembers ms, r) := by
  induction ms with
  | nil =>
    intro f lvlm lvlo r
    simpa [strMembers, dumpObjRest] using parseObjRest_close f lvlo r
  | cons kv ms ih =>
    intro f lvlm lvlo r
    obtain ⟨k, v⟩ := kv
    rw [show dumpObjRest lvlm (strMembers ((k, v) :: ms))
          ++ (nlIndent lvlo ++ '\x7d' :: r)
        = ',' :: (nlIndent lvlm ++ (encodeString k ++ ':' :: ' ' :: (encodeString v
            ++ (dumpObjRest lvlm (strMembers ms) ++ (nlIndent lvlo ++ '\x7d' :: r)))))
        from by simp [strMembers, dumpObjRest, dumpJson, List.append_assoc]]
    rw [show f + 2 * ((k, v) :: ms).length + 1 = (f + 2 * ms.length + 1) + 2 from by
      simp [List.length_cons]; ring]
    rw [parseObjRest_cons]
    rw [show (f + 2 * ms.length + 1) + 1 = (f + 1) + 2 * ms.length + 1 from by ring]
    rw [ih (f + 1) lvlm lvlo r]
    simp [strMembers]

theorem parseValue_strObj (f lvl : Nat) (k v : String) (ms : List (String × String))
    (r : List Char) :
    parseValue (f + 2 * ms.length + 3)
        (dumpJson lvl (.obj (strMembers ((k, v) :: ms))) ++ r)
      = some (.obj (strMembers ((k, v) :: ms)), r) := by
  rw [show dumpJson lvl (.obj (strMembers ((k, v) :: ms))) ++ r
      = '\x7b' :: (nlIndent (lvl + 1) ++ (encodeString k ++ ':' :: ' '
          :: (encodeString v ++ (dumpObjRest (lvl + 1) (strMembers ms)
            ++ (nlIndent lvl ++ '\x7d' :: r)))))
      from by simp [strMembers, dumpJson, List.append_assoc]]
  rw [show f + 2 * ms.length + 3 = (f + 2 * ms.length + 2) + 1 from by ring]
  conv_lhs => rw [parseValue.eq_def]
  simp [skipWs_cons_not (show jsonWs '\x7b' = false from rfl)]
  rw [show f + 2 * ms.length + 2 = (f + 2 * ms.length + 1) + 1 from by ring]
  conv_lhs => rw [parseObjBody.eq_def]
  simp [skipWs_nlIndent, skipWs_encodeString, parseStringBody_escBody,
    parseStringBody_escData,
    skipWs_cons_not (show jsonWs ':' = false from rfl),
    parseValue_cons_ws (show jsonWs ' ' = true from rfl),
    parseValue_encodeString, parseValue_str_cons, parseValue_str_data,
    parseObjRest_strMembers ms f (lvl + 1) lvl r, strMembers]

theorem parseValue_nlIndent (f lvl : Nat) (l : List Char) :
    parseValue (f + 1) (nlIndent lvl ++ l) = parseValue (f + 1) l := by
  rw [← parseValue_skipWs f (nlIndent lvl ++ l), skipWs_nlIndent, parseValue_skipWs]

theorem parseValue_entry (f lvl : Nat) (ts t c : String) (r : List Char) :
    parseValue (f + 7) (dumpJson lvl (entryJson ts t c) ++ r) = some (entryJson ts t c, r) := by
  have h := parseValue_strObj f lvl "timestamp" ts [("topic", t), ("content", c)] r
  simpa [strMembers, entryJson] using h

theorem parseArrRest_entries (l2 : List (String × String × String)) :
    ∀ (f lvl lvlo : Nat) (r : List Char),
      parseArrRest (f + 8 * l2.length + 1)
        (dumpArrRest lvl (entriesArr l2) ++ (nlIndent lvlo ++ ']' :: r))
        = some (entriesArr l2, r) := by
  induction l2 with
  | nil =>
    intro f lvl lvlo r
    simp only [entriesArr, dumpArrRest, List.length_nil, Nat.mul_zero, Nat.add_zero,
      List.nil_append]
    conv_lhs => rw [parseArrRest.eq_def]
    simp [skipWs_nlIndent, skipWs_cons_not (show jsonWs ']' = false from rfl)]
  | cons x l2 ih =>
    intro f lvl lvlo r
    obtain ⟨ts, t, c⟩ := x
    rw [show dumpArrRest lvl (entriesArr ((ts, t, c) :: l2)) ++ (nlIndent lvlo ++ ']' :: r)
        = ',' :: (nlIndent lvl ++ (dumpJson lvl (entryJson ts t c)
            ++ (dumpArrRest lvl (entriesArr l2) ++ (nlIndent lvlo ++ ']' :: r))))
        from by simp [entriesArr, dumpArrRest, List.append_assoc]]
    rw [show f + 8 * ((ts, t, c) :: l2).length + 1 = (f + 8 * l2.length + 8) + 1 from by
      simp [List.length_cons]; ring]
    conv_lhs => rw [parseArrRest.eq_def]
    simp only [skipWs_cons_not (show jsonWs ',' = false from rfl)]
    rw [show parseValue (f + 8 * l2.length + 8)
          (nlIndent lvl ++ (dumpJson lvl (entryJson ts t c)
            ++ (dumpArrRest lvl (entriesArr l2) ++ (nlIndent lvlo ++ ']' :: r))))
        = some (entryJson ts t c,
            dumpArrRest lvl (entriesArr l2) ++ (nlIndent lvlo ++ ']' :: r)) from by
      rw [show f + 8 * l2.length + 8 = (f + 8 * l2.length + 7) + 1 from by ring]
      rw [parseValue_nlIndent]
      rw [show (f + 8 * l2.length + 7) + 1 = (f + 8 * l2.length + 1) + 7 from by ring]
      exact parseValue_entry _ lvl ts t c _]
    simp
    rw [show f + 8 * l2.length + 8 = (f + 7) + 8 * l2.length + 1 from by ring]
    rw [ih (f + 7) lvl lvlo r]
    simp [entriesArr]

theorem parseValue_arrEntries (l : List (String × String × String)) (f : Nat)
    (r : List Char) :
    parseValue (f + 8 * l.length + 3) (dumpJson 0 (.arr (entriesArr l)) ++ r)
      = some (.arr (entriesArr l), r) := by
  cases l with
  | nil =>
    simp only [entriesArr, List.length_nil, Nat.mul_zero, Nat.add_zero]
    rw [show dumpJson 0 (.arr .nil) ++ r = '[' :: ']' :: r from by simp [dumpJson]]
    rw [show f + 3 = (f + 2) + 1 from by ring]
    conv_lhs => rw [parseValue.eq_def]
    simp only [skipWs_cons_not (show jsonWs '[' = false from rfl)]
    rw [show f + 2 = (f + 1) + 1 from by ring]
    simp
    conv_lhs => rw [parseArrBody.eq_def]
    simp [skipWs_cons_not (show jsonWs ']' = false from rfl)]
  | cons x l2 =>
    obtain ⟨ts, t, c⟩ := x
    obtain ⟨tl, hcons⟩ : ∃ tl, dumpJson 1 (entryJson ts t c)
        ++ (dumpArrRest 1 (entriesArr l2) ++ (nlIndent 0 ++ ']' :: r)) = '\x7b' :: tl :=
      ⟨nlIndent 2 ++ (encodeString "timestamp" ++ ':' :: ' '
          :: (encodeString ts ++ (dumpObjRest 2 (JsonObj.cons "topic" (Json.str t)
            (JsonObj.cons "content" (Json.str c) JsonObj.nil))
              ++ (nlIndent 1 ++ '\x7d' :: (dumpArrRest 1 (entriesArr l2)
                ++ (nlIndent 0 ++ ']' :: r)))))),
        by simp [entryJson, strMembers, dumpJson, List.append_assoc]⟩
    rw [show dumpJson 0 (.arr (entriesArr ((ts, t, c) :: l2))) ++ r
        = '[' :: (nlIndent 1 ++ (dumpJson 1 (entryJson ts t c)
            ++ (dumpArrRest 1 (entriesArr l2) ++ (nlIndent 0 ++ ']' :: r))))
        from by simp [entriesArr, dumpJson, List.append_assoc]]
    rw [show f + 8 * ((ts, t, c) :: l2).length + 3 = (f + 8 * l2.length + 10) + 1 from by
      simp [List.length_cons]; ring]
    conv_lhs => rw [parseValue.eq_def]
    simp only [skipWs_cons_not (show jsonWs '[' = false from rfl)]
    simp
    rw [show f + 8 * l2.length + 10 = (f + 8 * l2.length + 9) + 1 from by ring]
    have hskip : skipWs (nlIndent 1 ++ (dumpJson 1 (entryJson ts t c)
          ++ (dumpArrRest 1 (entriesArr l2) ++ (nlIndent 0 ++ ']' :: r))))
        = '\x7b' :: tl := by
      rw [skipWs_nlIndent, hcons, skipWs_cons_not (show jsonWs '\x7b' = false from rfl)]
    conv_lhs => rw [parseArrBody.eq_def]
    simp only [hskip]
    simp
    rw [← hcons]
    rw [show parseValue (f + 8 * l2.length + 9)
          (dumpJson 1 (entryJson ts t c)
            ++ (dumpArrRest 1 (entriesArr l2) ++ (nlIndent 0 ++ ']' :: r)))
        = some (entryJson ts t c,
            dumpArrRest 1 (entriesArr l2) ++ (nlIndent 0 ++ ']' :: r)) from by
      rw [show f + 8 * l2.length + 9 = (f + 8 * l2.length + 2) + 7 from by ring]
      exact parseValue_entry _ 1 ts t c _]
    simp
    rw [show f + 8 * l2.length + 9 = (f + 8) + 8 * l2.length + 1 from by ring]
    rw [parseArrRest_entries l2 (f + 8) 1 0 r]
    simp [entriesArr]

theorem entry_dump_len (lvl : Nat) (ts t c : String) :
    1 ≤ (dumpJson lvl (entryJson ts t c)).length := by
  simp [entryJson, dumpJson]

theorem dumpArrRest_entries_len (l2 : List (String × String × String)) (lvl : Nat) :
    3 * l2.length ≤ (dumpArrRest lvl (entriesArr l2)).length := by
  induction l2 with
  | nil => simp [entriesArr, dumpArrRest]
  | cons x l2 ih =>
    obtain ⟨ts, t, c⟩ := x
    have he := entry_dump_len lvl ts t c
    simp only [entriesArr, dumpArrRest, List.length_cons, List.length_append,
      nlIndent, List.length_replicate]
    omega

theorem arr_dump_len (l : List (String × String × String)) :
    3 * l.length ≤ (dumpJson 0 (Json.arr (entriesArr l))).length := by
  cases l with
  | nil => simp [entriesArr, dumpJson]
  | cons x l2 =>
    obtain ⟨ts, t, c⟩ := x
    have he := entry_dump_len 1 ts t c
    have hr := dumpArrRest_entries_len l2 1
    rw [show dumpJson 0 (Json.arr (entriesArr ((ts, t, c) :: l2)))
        = '[' :: (nlIndent 1 ++ (dumpJson 1 (entryJson ts t c)
            ++ (dumpArrRest 1 (entriesArr l2) ++ (nlIndent 0 ++ [']']))))
        from by simp [entriesArr, dumpJson, List.append_assoc]]
    simp only [List.length_cons, List.length_append, nlIndent, List.length_replicate,
      List.length_singleton]
    omega

theorem loads_dumps_entries (l : List (String × String × String)) :
    loads (dumps (Json.arr (entriesArr l))) = some (Json.arr (entriesArr l)) := by
  have hlen := arr_dump_len l
  obtain ⟨f, hf⟩ : ∃ f, 3 * (dumpJson 0 (Json.arr (entriesArr l))).length + 3
      = f + 8 * l.length + 3 :=
    ⟨3 * (dumpJson 0 (Json.arr (entriesArr l))).length - 8 * l.length, by omega⟩
  have hp := parseValue_arrEntries l f []
  rw [List.append_nil] at hp
  simp only [loads, dumps]
  rw [show (String.mk (dumpJson 0 (Json.arr (entriesArr l)))).toList
      = dumpJson 0 (Json.arr (entriesArr l)) from rfl]
  rw [hf, hp]
  simp [skipWs]

/-! ## Lemmas: the store transitions -/

theorem entriesArr_append (a b : List (String × String × String)) :
    entriesArr (a ++ b) = (entriesArr a).append (entriesArr b) := by
  induction a with
  | nil => rfl
  | cons x a ih =>
    obtain ⟨ts, t, c⟩ := x
    simp [entriesArr, JsonArr.append, ih]

theorem save_on_entries (done : List (String × String × String)) (ts t c : String) :
    save_content_history (some (dumps (Json.arr (entriesArr done)))) ts t c
      = .ok (dumps (Json.arr (entriesArr (done ++ [(ts, t, c)])))) := by
  simp only [save_content_history, loads_dumps_entries done]
  rw [show (entriesArr done).append (.cons (entryJson ts t c) .nil)
      = entriesArr (done ++ [(ts, t, c)]) from by
    rw [entriesArr_append]; rfl]

theorem appendAll_entries (xs : List (String × String × String)) :
    ∀ done : List (String × String × String),
      appendAll (some (dumps (Json.arr (entriesArr done)))) xs
        = .ok (some (dumps (Json.arr (entriesArr (done ++ xs))))) := by
  induction xs with
  | nil => intro done; simp [appendAll]
  | cons x xs ih =>
    intro done
    obtain ⟨ts, t, c⟩ := x
    conv_lhs => rw [appendAll.eq_def]
    simp only [List.append_assoc]
    rw [save_on_entries done ts t c]
    simp
    rw [ih (done ++ [(ts, t, c)])]
    simp

theorem readAfterAppends_eq (xs : List (String × String × String)) :
    readAfterAppends xs = .ok (Json.arr (entriesArr xs)) := by
  cases xs with
  | nil => rfl
  | cons x xs =>
    obtain ⟨ts, t, c⟩ := x
    simp only [readAfterAppends]
    conv_lhs => rw [appendAll.eq_def]
    simp
    rw [show save_content_history none ts t c
        = .ok (dumps (Json.arr (entriesArr [(ts, t, c)]))) from rfl]
    simp
    rw [appendAll_entries xs [(ts, t, c)]]
    simp only [List.singleton_append]
    simp [get_content_history, loads_dumps_entries]

/-! ## Lemmas: ISO-8601 timestamps -/

theorem digitChar_mod_isDigit (n : Nat) : (digitChar (n % 10)).isDigit = true := by
  have h : n % 10 < 10 := Nat.mod_lt _ (by norm_num)
  set k := n % 10 with hk
  interval_cases k <;> decide

theorem isIso8601_isoformat (d : PyDateTime) :
    isIso8601 (isoformat d) = true := by
  by_cases hms : d.microsecond = 0
  · simp [isoformat, isIso8601, pad2, pad4, pad6, hms, digitChar_mod_isDigit]
  · simp [isoformat, isIso8601, pad2, pad4, pad6, hms, digitChar_mod_isDigit]

/-! ## Claims C4, C5, C9: the history store -/

/-- Claim C4 fails on the code: a file containing `[{}]` is valid JSON but
not an array of objects with the required keys, yet `get_content_history`
returns it without raising. The code performs no schema validation. -/
theorem claim_C4_counterexample :
    get_content_history (some "[\x7b\x7d]")
      = .ok (Json.arr (JsonArr.cons (Json.obj .nil) .nil))
    ∧ validHistoryJson (Json.arr (JsonArr.cons (Json.obj .nil) .nil)) = false := by
  constructor
  · rfl
  · decide

/-- Claim C4 as amended: `get_content_history` returns an empty list when
the file is absent; when the file exists it raises
(`json.JSONDecodeError`) exactly when the text does not decode as JSON,
and any value the text does decode to — whether or not it is an array of
objects with the required keys — is returned as-is, with no schema
validation. -/
theorem claim_C4_amended :
    get_content_history none = .ok (Json.arr .nil)
    ∧ (∀ s : String,
        (get_content_history (some s) = .error .jsonDecodeError ↔ loads s = none))
    ∧ ∀ (s : String) (j : Json), loads s = some j →
        get_content_history (some s) = .ok j := by
  refine ⟨rfl, fun s => ?_, fun s j h => ?_⟩
  · rcases h : loads s with _ | j <;> simp [h, get_content_history]
  · simp [get_content_history, h]

/-- Witness for the amended C4 at a concrete decodable but
non-conforming file. -/
theorem claim_C4_witness :
    loads "[\x7b\x7d]" = some (Json.arr (JsonArr.cons (Json.obj .nil) .nil))
    ∧ get_content_history (some "[\x7b\x7d]")
      = .ok (Json.arr (JsonArr.cons (Json.obj .nil) .nil)) :=
  ⟨by decide, claim_C4_amended.2.2 "[\x7b\x7d]"
    (Json.arr (JsonArr.cons (Json.obj .nil) .nil)) (by decide)⟩

/-- Claim C5: starting from an absent store, `append(isoformat(now), t, c)`
followed by `read_all` yields exactly one entry with that topic, content,
and a parseable ISO-8601 timestamp; and any sequence of appends yields
exactly the appended entries in append order, each append preserving all
previous entries. -/
theorem claim_C5 (dt : PyDateTime) (t c : String)
    (xs : List (String × String × String)) (h : dt.Valid) :
    (readAfterAppends [(isoformat dt, t, c)]
        = .ok (Json.arr (JsonArr.cons (entryJson (isoformat dt) t c) .nil))
      ∧ isIso8601 (isoformat dt) = true)
    ∧ readAfterAppends xs = .ok (Json.arr (entriesArr xs)) := by
  refine ⟨⟨?_, isIso8601_isoformat dt⟩, readAfterAppends_eq xs⟩
  simpa [entriesArr] using readAfterAppends_eq [(isoformat dt, t, c)]

/-- Witness for C5 at a concrete clock value and the three-append
scenario from the spec. -/
theorem claim_C5_witness :
    (PyDateTime.mk 2024 5 17 10 30 45 123456).Valid
    ∧ (readAfterAppends
          [(isoformat (PyDateTime.mk 2024 5 17 10 30 45 123456), "Wine 1", "caption")]
        = .ok (Json.arr (JsonArr.cons
            (entryJson (isoformat (PyDateTime.mk 2024 5 17 10 30 45 123456))
              "Wine 1" "caption") .nil))
      ∧ isIso8601 (isoformat (PyDateTime.mk 2024 5 17 10 30 45 123456)) = true)
    ∧ readAfterAppends [("t1", "Wine 1", "c1"), ("t2", "Wine 2", "c2"),
          ("t3", "Wine 3", "c3")]
        = .ok (Json.arr (entriesArr [("t1", "Wine 1", "c1"), ("t2", "Wine 2", "c2"),
            ("t3", "Wine 3", "c3")])) :=
  ⟨by decide, claim_C5 (PyDateTime.mk 2024 5 17 10 30 45 123456) "Wine 1" "caption"
    [("t1", "Wine 1", "c1"), ("t2", "Wine 2", "c2"), ("t3", "Wine 3", "c3")] (by decide)⟩

/-- Claim C9: appending a non-ASCII topic stores it literally (the escape
function leaves every character of it unchanged, and the file text
contains the topic verbatim as a substring), and reading the store back
yields the identical string. -/
theorem claim_C9 :
    save_content_history none "2024-05-01T10:20:30.000001"
        "Château Margaux 2015 (€€€)" "Post text"
      = .ok (dumps (Json.arr (JsonArr.cons
          (entryJson "2024-05-01T10:20:30.000001"
            "Château Margaux 2015 (€€€)" "Post text") .nil)))
    ∧ get_content_history (some (dumps (Json.arr (JsonArr.cons
          (entryJson "2024-05-01T10:20:30.000001"
            "Château Margaux 2015 (€€€)" "Post text") .nil))))
      = .ok (Json.arr (JsonArr.cons
          (entryJson "2024-05-01T10:20:30.000001"
            "Château Margaux 2015 (€€€)" "Post text") .nil))
    ∧ escBody "Château Margaux 2015 (€€€)".toList
        = "Château Margaux 2015 (€€€)".toList
    ∧ containsSub "Château Margaux 2015 (€€€)".toList
        (dumps (Json.arr (JsonArr.cons
          (entryJson "2024-05-01T10:20:30.000001"
            "Château Margaux 2015 (€€€)" "Post text") .nil))).toList = true := by
  refine ⟨rfl, ?_, by decide, by decide⟩
  have hl : loads (dumps (Json.arr (JsonArr.cons
      (entryJson "2024-05-01T10:20:30.000001"
        "Château Margaux 2015 (€€€)" "Post text") .nil)))
      = some (Json.arr (JsonArr.cons
          (entryJson "2024-05-01T10:20:30.000001"
            "Château Margaux 2015 (€€€)" "Post text") .nil)) := by
    simpa [entriesArr] using loads_dumps_entries
      [("2024-05-01T10:20:30.000001", "Château Margaux 2015 (€€€)", "Post text")]
  simp [get_content_history, hl]

/-! ## Claim C10: style and requirements do not influence generation -/

/-- Claim C10: `process_prompt` passes only the parsed topic and save flag
to `generate_content`; two prompts with equal extracted topic and save
flag lead to identical generation arguments, identical generated results,
and identical final store state, regardless of differing style or
requirement keywords. -/
theorem claim_C10 (service : String → String) (n1 n2 : PyDateTime)
    (file : Option String) (p1 p2 : String)
    (htopic : (parse_instruction p1).topic = (parse_instruction p2).topic)
    (hsave : (parse_instruction p1).save_file = (parse_instruction p2).save_file) :
    process_prompt_gen_args p1 = process_prompt_gen_args p2
    ∧ (process_prompt service n1 n2 file p1).map (fun x => (x.1.generated_content, x.2))
      = (process_prompt service n1 n2 file p2).map
          (fun x => (x.1.generated_content, x.2)) := by
  constructor
  · simp [process_prompt_gen_args, htopic, hsave]
  · simp only [process_prompt]
    rw [htopic, hsave]
    rcases hgen : generate_content service n1 n2 file (parse_instruction p2).topic
        (parse_instruction p2).save_file with e | v
    · simp [hgen]
    · obtain ⟨gr, f2⟩ := v
      simp [hgen, Except.map]

/-- Witness for C10: two prompts with the same extracted topic and save
flag but different extracted requirements (the stop-word "about" breaks
the phrase "call to action" in the first prompt only). -/
theorem claim_C10_witness :
    (parse_instruction "call to about action").topic
      = (parse_instruction "call to action").topic
    ∧ (parse_instruction "call to about action").save_file
      = (parse_instruction "call to action").save_file
    ∧ (parse_instruction "call to about action").requirements
      ≠ (parse_instruction "call to action").requirements
    ∧ (process_prompt id (PyDateTime.mk 2024 1 1 0 0 0 0)
          (PyDateTime.mk 2024 1 1 0 0 0 1) none "call to about action").map
          (fun x => (x.1.generated_content, x.2))
      = (process_prompt id (PyDateTime.mk 2024 1 1 0 0 0 0)
          (PyDateTime.mk 2024 1 1 0 0 0 1) none "call to action").map
          (fun x => (x.1.generated_content, x.2)) :=
  ⟨by decide, by decide, by decide,
    (claim_C10 id (PyDateTime.mk 2024 1 1 0 0 0 0) (PyDateTime.mk 2024 1 1 0 0 0 1)
      none "call to about action" "call to action" (by decide) (by decide)).2⟩

/-! ## Remaining witnesses -/

/-- Witness for C1 at a concrete non-empty instruction. -/
theorem claim_C1_witness :
    ("Create a post about Merlot" : String) ≠ ""
    ∧ (parse_instruction "Create a post about Merlot").topic ≠ "" :=
  ⟨by decide, (claim_C1 "Create a post about Merlot").2.2 (by decide)⟩

/-- Witness for C3: "formal" (professional, declared second) wins over
"fun" (declared third). -/
theorem claim_C3_witness :
    (["professional", "formal", "business", "corporate"].any
        (fun k => strIn k (pyLower "a formal and fun wine post"))) = true
    ∧ extract_style (pyLower "a formal and fun wine post") ≠ "fun" :=
  ⟨by decide, (claim_C3 "a formal and fun wine post").2.2 1 2 (by decide) (by decide)
    (by decide) (by decide)⟩

/-- Witness for C6 at the include_cta tag. -/
theorem claim_C6_witness :
    ("include_cta", ["call to action", "cta", "include cta"]) ∈ requirement_patterns
    ∧ ("include_cta" ∈ extract_requirements (pyLower "Wine post with a call to action")
        ↔ (["call to action", "cta", "include cta"].any
            (fun k => strIn k (pyLower "Wine post with a call to action"))) = true) :=
  ⟨by decide, (claim_C6 "Wine post with a call to action").2.1 _ _ (by decide)⟩

end InstaGen

